import Mathlib

/-!
Verification of the availability-slot pipeline of `src/gCalendar.js`
(free/busy retrieval, hourly slot generation, interval grouping,
calendar-day bucketing).

Shallow embedding conventions:
* Instants are epoch milliseconds, modelled as `Int` (JS `Date.getTime()`).
* A JS `{start, end}` interval becomes `Interval` with fields `start` and
  `stop` (`end` is a Lean keyword).
* The `Intl.DateTimeFormat` platform service is modelled by a `TimeZone`
  (an offset-in-minutes function of the instant, covering DST) together
  with a lookup table `tzdb : String → Option TimeZone`; a failed lookup
  models the `RangeError` that `Intl` raises on an invalid IANA name.
* Thrown JS errors become `Except String` results; the `while` loop that
  aligns the cursor to the next top-of-hour has no static bound in the
  source, so it is given explicit fuel and returns `none` when the fuel
  is exhausted (modelling non-termination of the JS loop).
-/

namespace GCalendar

/-- One millisecond count per minute. -/
def msPerMinute : Int := 60000

/-- One millisecond count per hour (the fixed slot duration of
`generateHourlySlots`). -/
def msPerHour : Int := 3600000

/-- A half-open time interval `[start, stop)` in epoch milliseconds.
The JS objects use the field name `end`; we write `stop`. -/
structure Interval where
  start : Int
  stop : Int
  deriving Repr, DecidableEq

/-- Membership of an instant in a half-open interval. -/
def Interval.mem (iv : Interval) (t : Int) : Prop :=
  iv.start ≤ t ∧ t < iv.stop

instance (iv : Interval) (t : Int) : Decidable (iv.mem t) := by
  unfold Interval.mem; infer_instance

/-- An instant is covered by some interval of the list. -/
def coveredBy (l : List Interval) (t : Int) : Prop :=
  ∃ iv ∈ l, iv.mem t

instance (l : List Interval) (t : Int) : Decidable (coveredBy l t) := by
  unfold coveredBy; infer_instance

/-- A time zone, as observed through `Intl.DateTimeFormat`: the UTC offset
in whole minutes at a given UTC instant (a function of the instant, so DST
transitions are representable). -/
structure TimeZone where
  offset : Int → Int

/-- The local calendar/clock parts that `getZonedParts` extracts from its
`Intl.DateTimeFormat.formatToParts` call: numeric year, month, day, hour,
minute and the weekday index of the `{sun: 0, ..., sat: 6}` map. -/
structure ZonedParts where
  year : Int
  month : Int
  day : Int
  hour : Int
  minute : Int
  weekday : Int
  deriving Repr, DecidableEq

/-- Civil date (year, month, day) of a day count since 1970-01-01, the
standard days-to-civil conversion that the platform's formatter performs
for the proleptic Gregorian calendar. -/
def civilFromDays (z : Int) : Int × Int × Int :=
  let z' := z + 719468
  let era := z' / 146097
  let doe := z' - era * 146097
  let yoe := (doe - doe / 1460 + doe / 36524 - doe / 146096) / 365
  let y := yoe + era * 400
  let doy := doe - (365 * yoe + yoe / 4 - yoe / 100)
  let mp := (5 * doy + 2) / 153
  let d := doy - (153 * mp + 2) / 5 + 1
  let m := mp + (if mp < 10 then 3 else -9)
  (y + (if m ≤ 2 then 1 else 0), m, d)

/-- Embedding of `getZonedParts(date, timeZone)` (src/gCalendar.js:135-156)
for a time zone that the platform recognizes: local wall-clock parts of the
instant `ms` under the zone's offset.  1970-01-01 was a Thursday, hence the
`+ 4` in the weekday computation (`sun = 0 ... sat = 6`). -/
def zonedParts (tz : TimeZone) (ms : Int) : ZonedParts :=
  let localMin := ms / msPerMinute + tz.offset ms
  let days := localMin / 1440
  let c := civilFromDays days
  { year := c.1, month := c.2.1, day := c.2.2
    hour := (localMin / 60) % 24
    minute := localMin % 60
    weekday := (days + 4) % 7 }

/-- Embedding of `getZonedParts` including the `Intl.DateTimeFormat`
constructor's behavior on the zone name: an unrecognized IANA identifier
raises a `RangeError` at the first call. `tzdb` models the platform's
time-zone database. -/
def getZonedParts (tzdb : String → Option TimeZone) (tzName : String)
    (ms : Int) : Except String ZonedParts :=
  match tzdb tzName with
  | none => .error ("Invalid time zone specified: " ++ tzName)
  | some tz => .ok (zonedParts tz ms)

/-- The free-slot scan inside `checkCalendarAvailability`
(src/gCalendar.js:101-122): walk the busy list with a moving
`currentTime`, emit the gap before each busy interval, finish with the gap
up to `endTime`. -/
def freeSlotsLoop (currentTime endTime : Int) : List Interval → List Interval
  | [] => if currentTime < endTime then [⟨currentTime, endTime⟩] else []
  | b :: rest =>
      (if currentTime < b.start then [⟨currentTime, b.start⟩] else []) ++
        freeSlotsLoop b.stop endTime rest

/-- Free intervals computed by `checkCalendarAvailability` from the busy
list within the window `[timeMin, timeMax]` (src/gCalendar.js:94-122). -/
def computeFreeSlots (timeMin timeMax : Int) (busy : List Interval) :
    List Interval :=
  freeSlotsLoop timeMin timeMax busy

/-- The top-of-hour alignment loop of `generateHourlySlots`
(src/gCalendar.js:170-174): `while (parts.minute !== 0) current += 60s`.
The JS loop has no static bound, so the embedding carries fuel counting
the one-minute advances still allowed; `none` models a run that exceeds
the fuel (the JS loop not terminating within that many steps). -/
def alignToHour (tz : TimeZone) : Nat → Int → Option Int
  | 0, current =>
      if (zonedParts tz current).minute = 0 then some current else none
  | fuel + 1, current =>
      if (zonedParts tz current).minute = 0 then some current
      else alignToHour tz fuel (current + msPerMinute)

/-- The body of the slot-emission loop, recursing on an explicit
iteration count so that the definition is structurally recursive (the JS
`while` loop runs exactly `⌊(endDate - current) / 1h⌋` iterations, see
`slotLoop_eq`): while a full hour fits before `endDate`, emit the slot
`[current, current + 1h)` when its local start is Mon-Fri and within
`[WORK_START_HOUR, WORK_END_HOUR)`, and advance by one hour regardless. -/
def slotLoopN (tz : TimeZone) (workStart workEnd endDate : Int) :
    Nat → Int → List Interval
  | 0, _ => []
  | n + 1, current =>
      if current + msPerHour ≤ endDate then
        let startParts := zonedParts tz current
        let isWeekday := 1 ≤ startParts.weekday ∧ startParts.weekday ≤ 5
        let withinHours :=
          workStart ≤ startParts.hour ∧ startParts.hour < workEnd
        (if isWeekday ∧ withinHours then [⟨current, current + msPerHour⟩]
          else []) ++
          slotLoopN tz workStart workEnd endDate n (current + msPerHour)
      else []

/-- The slot-emission loop of `generateHourlySlots`
(src/gCalendar.js:177-191), with the iteration count that the `while`
guard enforces; `slotLoop_eq` proves this definition satisfies exactly
the loop's unfolding. -/
def slotLoop (tz : TimeZone) (workStart workEnd : Int) (endDate : Int)
    (current : Int) : List Interval :=
  slotLoopN tz workStart workEnd endDate
    ((endDate - current).toNat / 3600000) current

/-- The defining equation of the JS `while` loop of
src/gCalendar.js:177-191: `slotLoop` unfolds one guard test at a time. -/
theorem slotLoop_eq (tz : TimeZone) (workStart workEnd endDate current :
    Int) :
    slotLoop tz workStart workEnd endDate current =
      if current + msPerHour ≤ endDate then
        (if (1 ≤ (zonedParts tz current).weekday ∧
              (zonedParts tz current).weekday ≤ 5) ∧
            workStart ≤ (zonedParts tz current).hour ∧
            (zonedParts tz current).hour < workEnd then
          [⟨current, current + msPerHour⟩] else []) ++
        slotLoop tz workStart workEnd endDate (current + msPerHour)
      else [] := by
  unfold slotLoop
  by_cases h : current + msPerHour ≤ endDate
  · have hms : msPerHour = 3600000 := rfl
    have hn : (endDate - current).toNat / 3600000 =
        (endDate - (current + msPerHour)).toNat / 3600000 + 1 := by
      rw [hms] at h ⊢
      omega
    rw [hn]
    simp only [slotLoopN, if_pos h]
  · have hms : msPerHour = 3600000 := rfl
    have hn : (endDate - current).toNat / 3600000 = 0 := by
      rw [hms] at h
      omega
    rw [hn]
    simp only [slotLoopN, if_neg h]

/-- One iteration of the `slots.forEach` body of `generateHourlySlots`
(src/gCalendar.js:165-192): align the cursor to the next local top of hour,
then run the bounded slot-emission loop over the interval. -/
def hourlySlotsForInterval (tz : TimeZone) (fuel : Nat)
    (workStart workEnd : Int) (iv : Interval) : Option (List Interval) :=
  (alignToHour tz fuel iv.start).map
    (fun current => slotLoop tz workStart workEnd iv.stop current)

/-- The whole `slots.forEach` of `generateHourlySlots` over the free
intervals, concatenating each interval's slots in order; `none` as soon as
one interval's alignment loop exceeds the fuel. -/
def generateHourlySlotsCore (tz : TimeZone) (fuel : Nat)
    (workStart workEnd : Int) : List Interval → Option (List Interval)
  | [] => some []
  | iv :: rest => do
      let s ← hourlySlotsForInterval tz fuel workStart workEnd iv
      let r ← generateHourlySlotsCore tz fuel workStart workEnd rest
      pure (s ++ r)

/-- Embedding of `generateHourlySlots(slots, timeZone, ...)`
(src/gCalendar.js:159-195) with the platform time-zone database explicit;
`workStart`/`workEnd` are the integers the source's `parseInt` calls
produce from the working-hour arguments.
The time-zone name is only ever passed to `Intl` inside `getZonedParts`,
whose first call happens in the alignment loop of the first interval: with
an empty interval list the name is never looked up, and with a non-empty
list an unrecognized name raises the `Intl` `RangeError` before any slot
is produced.  `Except.error` is that raised error; the inner `Option` is
the alignment fuel (see `alignToHour`). -/
def generateHourlySlots (tzdb : String → Option TimeZone) (fuel : Nat)
    (slots : List Interval) (tzName : String) (workStart workEnd : Int) :
    Except String (Option (List Interval)) :=
  match slots with
  | [] => .ok (some [])
  | _ :: _ =>
      match tzdb tzName with
      | none => .error ("Invalid time zone specified: " ++ tzName)
      | some tz =>
          .ok (generateHourlySlotsCore tz fuel workStart workEnd slots)

/-- The accumulation loop of `groupSlotsIntoIntervals`
(src/gCalendar.js:207-226): extend the running interval while each next
slot starts exactly at its end, otherwise close it and start anew; the
running interval is pushed at the end of input. -/
def groupLoop (currentInterval : Interval) : List Interval → List Interval
  | [] => [currentInterval]
  | s :: rest =>
      if s.start = currentInterval.stop then
        groupLoop ⟨currentInterval.start, s.stop⟩ rest
      else
        currentInterval :: groupLoop ⟨s.start, s.stop⟩ rest

/-- Embedding of `groupSlotsIntoIntervals(slots)`
(src/gCalendar.js:198-229). -/
def groupSlotsIntoIntervals : List Interval → List Interval
  | [] => []
  | s :: rest => groupLoop ⟨s.start, s.stop⟩ rest

/-- One entry of the `errors` array that the free/busy response can carry
for a calendar (src/gCalendar.js:41-77). -/
structure ApiError where
  domain : String
  reason : String
  deriving Repr, DecidableEq

/-- Outcome of the outbound `calendar.freebusy.query` call as observed by
`checkCalendarAvailability`: the call itself may throw (auth / network),
the response may lack the requested calendar, carry an `errors` field, or
carry a busy list (possibly absent, read as `[]`). -/
inductive ApiOutcome where
  | threw (msg : String)
  | missingCalendar
  | respErrors (errors : List ApiError)
  | respBusy (busy : Option (List Interval))
  deriving Repr

/-- The error-classification cascade of src/gCalendar.js:49-76: specific
messages for `notFound`, `forbidden` and `badRequest` reasons, then the
generic message built from the first error's reason (`"Unknown error"`
when the array is empty or the reason is the empty string, matching
`errorDetails[0]?.reason || "Unknown error"`). -/
def classifyErrors (calendarId : String) (errors : List ApiError) : String :=
  if errors.any (fun e => e.domain = "global" ∧ e.reason = "notFound") then
    "Calendar not found: " ++ calendarId
  else if errors.any (fun e => e.domain = "global" ∧ e.reason = "forbidden") then
    "Access denied to calendar: " ++ calendarId
  else if errors.any (fun e => e.domain = "global" ∧ e.reason = "badRequest") then
    "Invalid calendar ID: " ++ calendarId
  else
    "Cannot access calendar " ++ calendarId ++ ": " ++
      (match errors.head? with
       | some e => if e.reason = "" then "Unknown error" else e.reason
       | none => "Unknown error")

/-- The successful payload of `checkCalendarAvailability`: the busy times
as reported and the computed free slots. -/
structure FreeBusy where
  busy : List Interval
  free : List Interval
  deriving Repr, DecidableEq

/-- The body of the `try` block of `checkCalendarAvailability`
(src/gCalendar.js:13-127): every `throw` (and a throwing API call) is an
`Except.error`. -/
def checkCalendarAvailabilityBody (timeMin timeMax : Int)
    (calendarId : String) (api : ApiOutcome) : Except String FreeBusy :=
  match api with
  | .threw msg => .error msg
  | .missingCalendar =>
      .error ("Calendar not found or access denied: " ++ calendarId)
  | .respErrors errors => .error (classifyErrors calendarId errors)
  | .respBusy busy =>
      let busyTimes := busy.getD []
      .ok ⟨busyTimes, computeFreeSlots timeMin timeMax busyTimes⟩

/-- The value `checkCalendarAvailability` resolves with: either
`{busy, free}` or `{error}` (src/gCalendar.js:124-131). -/
inductive CheckResult where
  | ok (busy free : List Interval)
  | err (msg : String)
  deriving Repr, DecidableEq

/-- Embedding of `checkCalendarAvailability` (src/gCalendar.js:7-132): the
`try`/`catch` wrapper that turns every thrown error into the returned
object `{error: error.message}` instead of rethrowing. -/
def checkCalendarAvailability (timeMin timeMax : Int) (calendarId : String)
    (api : ApiOutcome) : CheckResult :=
  match checkCalendarAvailabilityBody timeMin timeMax calendarId api with
  | .ok fb => .ok fb.busy fb.free
  | .error msg => .err msg

/-- Long weekday name of the `sun = 0 ... sat = 6` index, as produced by
`toLocaleDateString("en-US", { weekday: "long" })`. -/
def weekdayLongName (w : Int) : String :=
  if w = 0 then "Sunday" else if w = 1 then "Monday"
  else if w = 2 then "Tuesday" else if w = 3 then "Wednesday"
  else if w = 4 then "Thursday" else if w = 5 then "Friday"
  else if w = 6 then "Saturday" else ""

/-- Long month name of a 1-12 month number, as produced by
`toLocaleDateString("en-US", { month: "long" })`. -/
def monthLongName (m : Int) : String :=
  if m = 1 then "January" else if m = 2 then "February"
  else if m = 3 then "March" else if m = 4 then "April"
  else if m = 5 then "May" else if m = 6 then "June"
  else if m = 7 then "July" else if m = 8 then "August"
  else if m = 9 then "September" else if m = 10 then "October"
  else if m = 11 then "November" else if m = 12 then "December" else ""

/-- Two-digit zero-padded rendering of 0-99 values, as produced by the
`2-digit` options (the source's extra `padStart(2, "0")` is a no-op). -/
def pad2 (n : Int) : String :=
  if n < 10 then "0" ++ toString n else toString n

/-- The per-interval object built by the `intervals.map` of
`formattedCalendarAvailability` (src/gCalendar.js:279-331): weekday name
lowercased, month name, 2-digit day, the ISO `YYYY-MM-DD` key from the
start instant, and the displayed `"HH:MM-HH:MM <zone>"` string (start and
end each formatted with their own local clock values). -/
structure IntervalObj where
  day : String
  month : String
  date : String
  dateStr : String
  interval : String
  deriving Repr, DecidableEq

/-- Builds one `IntervalObj` from a merged interval in the effective time
zone (src/gCalendar.js:279-331). -/
def intervalObject (tz : TimeZone) (tzName : String) (iv : Interval) :
    IntervalObj :=
  let p := zonedParts tz iv.start
  let pe := zonedParts tz iv.stop
  { day := (weekdayLongName p.weekday).toLower
    month := monthLongName p.month
    date := pad2 p.day
    dateStr := toString p.year ++ "-" ++ pad2 p.month ++ "-" ++ pad2 p.day
    interval := pad2 p.hour ++ ":" ++ pad2 p.minute ++ "-" ++
      pad2 pe.hour ++ ":" ++ pad2 pe.minute ++ " " ++ tzName }

/-- A value of the `grouped` object (src/gCalendar.js:334-345): the
weekday/month/day labels fixed at bucket creation plus the ordered
formatted interval strings. -/
structure DayBucket where
  day : String
  month : String
  date : String
  intervals : List String
  deriving Repr, DecidableEq

/-- Appends one interval string to a bucket. -/
def pushInterval (b : DayBucket) (s : String) : DayBucket :=
  { b with intervals := b.intervals ++ [s] }

/-- One iteration of the grouping loop (src/gCalendar.js:335-345): create
the bucket for `o.dateStr` if absent (with the labels of `o` and an empty
interval list), then push `o.interval` onto that bucket.  The JS object
keeps string keys in insertion order, modelled by an association list. -/
def addToGroups (grouped : List (String × DayBucket)) (o : IntervalObj) :
    List (String × DayBucket) :=
  let grouped' :=
    if grouped.any (fun p => p.1 = o.dateStr) then grouped
    else grouped ++ [(o.dateStr, ⟨o.day, o.month, o.date, []⟩)]
  grouped'.map (fun p =>
    if p.1 = o.dateStr then (p.1, pushInterval p.2 o.interval) else p)

/-- The full grouping loop over the interval objects
(src/gCalendar.js:334-345). -/
def groupByDate (objs : List IntervalObj) : List (String × DayBucket) :=
  objs.foldl addToGroups []

/-- Value returned by `formattedCalendarAvailability` on success: the
early-return empty array `[]`, or the `grouped` object keyed by ISO date.
The two shapes are distinct JS values (an array versus a plain object). -/
inductive FormattedResult where
  | emptyArr
  | grouped (buckets : List (String × DayBucket))
  deriving Repr, DecidableEq

/-- The `timeZone || "Europe/Riga"` defaulting applied at every use of the
time-zone argument (an empty string is falsy in JS). -/
def tzOrDefault (timeZone : String) : String :=
  if timeZone = "" then "Europe/Riga" else timeZone

/-- Embedding of `formattedCalendarAvailability`
(src/gCalendar.js:232-348).  `now` is the instant taken at entry, `api`
the outcome of the free/busy call for the window `[now, now + days·24h]`.
The pipeline: fetch, rethrow `result.error`, generate hourly slots (where
an invalid time zone first surfaces, via `generateHourlySlots`), return
the empty array when no slot or no interval exists, otherwise build and
group the interval objects.  The time-zone lookup in the formatting stage
re-reads `tzdb`; it is reached only with a non-empty slot list, for which
`generateHourlySlots` already forced the same lookup to succeed, so the
`.error` branch there is unreachable (and carries the message `Intl`
would raise). -/
def formattedCalendarAvailability (tzdb : String → Option TimeZone)
    (fuel : Nat) (timeZone : String) (days : Int) (calendarId : String)
    (api : ApiOutcome) (now : Int) (workStart workEnd : Int) :
    Except String (Option FormattedResult) :=
  let timeMin := now
  let timeMax := now + days * 24 * msPerHour
  match checkCalendarAvailability timeMin timeMax calendarId api with
  | .err msg => .error msg
  | .ok _ free =>
      match generateHourlySlots tzdb fuel free (tzOrDefault timeZone)
          workStart workEnd with
      | .error msg => .error msg
      | .ok none => .ok none
      | .ok (some hourlySlots) =>
          if hourlySlots.isEmpty then .ok (some .emptyArr)
          else
            let intervals := groupSlotsIntoIntervals hourlySlots
            if intervals.isEmpty then .ok (some .emptyArr)
            else
              match tzdb (tzOrDefault timeZone) with
              | none =>
                  .error ("Invalid time zone specified: " ++
                    tzOrDefault timeZone)
              | some tz =>
                  let objs := intervals.map
                    (intervalObject tz (tzOrDefault timeZone))
                  .ok (some (.grouped (groupByDate objs)))

/-! ### Helper lemmas -/

@[simp]
theorem coveredBy_nil (t : Int) : coveredBy [] t ↔ False := by
  simp [coveredBy]

@[simp]
theorem coveredBy_cons (iv : Interval) (l : List Interval) (t : Int) :
    coveredBy (iv :: l) t ↔ iv.mem t ∨ coveredBy l t := by
  simp [coveredBy]

@[simp]
theorem coveredBy_append (l₁ l₂ : List Interval) (t : Int) :
    coveredBy (l₁ ++ l₂) t ↔ coveredBy l₁ t ∨ coveredBy l₂ t := by
  simp [coveredBy, or_and_right, exists_or]

theorem freeSlotsLoop_covers (endTime : Int) (busy : List Interval) :
    ∀ current : Int,
      (∀ b ∈ busy, current ≤ b.start ∧ b.start ≤ b.stop ∧ b.stop ≤ endTime) →
      List.Pairwise (fun a b => a.stop ≤ b.start) busy →
      ∀ t, coveredBy (freeSlotsLoop current endTime busy) t ↔
        (current ≤ t ∧ t < endTime ∧ ¬ coveredBy busy t) := by
  induction busy with
  | nil =>
      intro current _ _ t
      by_cases h : current < endTime
      · simp only [freeSlotsLoop, if_pos h, coveredBy_cons, coveredBy_nil,
          Interval.mem]
        constructor
        · rintro (⟨h1, h2⟩ | hf)
          · exact ⟨h1, h2, fun hf => hf⟩
          · exact absurd hf id
        · rintro ⟨h1, h2, _⟩
          exact Or.inl ⟨h1, h2⟩
      · simp only [freeSlotsLoop, if_neg h, coveredBy_nil]
        constructor
        · rintro hf; exact absurd hf id
        · rintro ⟨h1, h2, _⟩; omega
  | cons b rest ih =>
      intro current hin hpair t
      have hb := hin b (by simp)
      have hrest : ∀ r ∈ rest, b.stop ≤ r.start ∧ r.start ≤ r.stop ∧
          r.stop ≤ endTime := by
        intro r hr
        have h1 := hin r (by simp [hr])
        have h2 := (List.pairwise_cons.mp hpair).1 r hr
        exact ⟨h2, h1.2⟩
      have ihr := ih b.stop hrest (List.pairwise_cons.mp hpair).2 t
      have hnr : t < b.start → ¬ coveredBy rest t := by
        intro ht hc
        obtain ⟨r, hrmem, hr1, hr2⟩ := hc
        have h3 := (hrest r hrmem).1
        have hr1' : r.start ≤ t := hr1
        omega
      obtain ⟨hb1, hb2, hb3⟩ := hb
      simp only [freeSlotsLoop, coveredBy_append, ihr, coveredBy_cons,
        Interval.mem]
      by_cases hgap : current < b.start
      · rw [if_pos hgap]
        simp only [coveredBy_cons, coveredBy_nil, Interval.mem, or_false]
        constructor
        · rintro (⟨h1, h2⟩ | ⟨h1, h2, h3⟩)
          · refine ⟨h1, by omega, ?_⟩
            rintro (⟨h4, h5⟩ | hc)
            · omega
            · exact hnr h2 hc
          · refine ⟨by omega, h2, ?_⟩
            rintro (⟨h4, h5⟩ | hc)
            · omega
            · exact h3 hc
        · rintro ⟨h1, h2, h3⟩
          have h4 : ¬ (b.start ≤ t ∧ t < b.stop) := fun h => h3 (Or.inl h)
          have h5 : ¬ coveredBy rest t := fun h => h3 (Or.inr h)
          by_cases hlt : t < b.start
          · exact Or.inl ⟨h1, hlt⟩
          · exact Or.inr ⟨by omega, h2, h5⟩
      · rw [if_neg hgap]
        simp only [coveredBy_nil, false_or]
        constructor
        · rintro ⟨h1, h2, h3⟩
          refine ⟨by omega, h2, ?_⟩
          rintro (⟨h4, h5⟩ | hc)
          · omega
          · exact h3 hc
        · rintro ⟨h1, h2, h3⟩
          have h4 : ¬ (b.start ≤ t ∧ t < b.stop) := fun h => h3 (Or.inl h)
          have h5 : ¬ coveredBy rest t := fun h => h3 (Or.inr h)
          exact ⟨by omega, h2, h5⟩

theorem freeSlotsLoop_sorted (endTime : Int) (busy : List Interval) :
    ∀ current : Int,
      (∀ b ∈ busy, current ≤ b.start ∧ b.start ≤ b.stop ∧ b.stop ≤ endTime) →
      List.Pairwise (fun a b => a.stop ≤ b.start) busy →
      (∀ iv ∈ freeSlotsLoop current endTime busy,
        current ≤ iv.start ∧ iv.start < iv.stop ∧ iv.stop ≤ endTime) ∧
      List.Pairwise (fun a b => a.stop ≤ b.start)
        (freeSlotsLoop current endTime busy) := by
  induction busy with
  | nil =>
      intro current _ _
      by_cases h : current < endTime
      · simp only [freeSlotsLoop, if_pos h]
        simp
        omega
      · simp only [freeSlotsLoop, if_neg h]
        simp
  | cons b rest ih =>
      intro current hin hpair
      have hb := hin b (by simp)
      have hrest : ∀ r ∈ rest, b.stop ≤ r.start ∧ r.start ≤ r.stop ∧
          r.stop ≤ endTime := by
        intro r hr
        exact ⟨(List.pairwise_cons.mp hpair).1 r hr, (hin r (by simp [hr])).2⟩
      obtain ⟨ihmem, ihpair⟩ := ih b.stop hrest (List.pairwise_cons.mp hpair).2
      constructor
      · intro iv hiv
        simp only [freeSlotsLoop] at hiv
        rcases List.mem_append.mp hiv with h | h
        · by_cases hgap : current < b.start <;> simp [hgap] at h
          subst h; simp; omega
        · have := ihmem iv h
          refine ⟨by omega, this.2⟩
      · simp only [freeSlotsLoop]
        rw [List.pairwise_append]
        refine ⟨?_, ihpair, ?_⟩
        · by_cases hgap : current < b.start <;> simp [hgap]
        · intro a ha a' ha'
          have h2 := (ihmem a' ha').1
          by_cases hgap : current < b.start <;> simp [hgap] at ha
          subst ha; simp; omega

/-! ### C1 : free/busy complement partitions the window -/

/-- C1. For every sorted, non-overlapping busy list lying within the
window `[timeMin, timeMax]`, the free intervals computed by
`checkCalendarAvailability` partition the window together with the busy
intervals: an instant is in the window iff it is covered by a free or a
busy interval, never by both; the free intervals are themselves
non-degenerate and pairwise disjoint (sorted with non-overlap); and with
no busy intervals the output is the single free interval equal to the
whole window. -/
theorem checkCalendar_free_partition (timeMin timeMax : Int)
    (busy : List Interval)
    (hin : ∀ b ∈ busy, timeMin ≤ b.start ∧ b.start ≤ b.stop ∧
      b.stop ≤ timeMax)
    (hsorted : List.Pairwise (fun a b => a.stop ≤ b.start) busy) :
    (∀ t, (timeMin ≤ t ∧ t < timeMax) ↔
      (coveredBy (computeFreeSlots timeMin timeMax busy) t ∨
        coveredBy busy t)) ∧
    (∀ t, ¬ (coveredBy (computeFreeSlots timeMin timeMax busy) t ∧
      coveredBy busy t)) ∧
    List.Pairwise (fun a b => a.stop ≤ b.start)
      (computeFreeSlots timeMin timeMax busy) ∧
    (∀ iv ∈ computeFreeSlots timeMin timeMax busy,
      iv.start < iv.stop ∧ timeMin ≤ iv.start ∧ iv.stop ≤ timeMax) ∧
    (busy = [] → timeMin < timeMax →
      computeFreeSlots timeMin timeMax busy = [⟨timeMin, timeMax⟩]) := by
  have hcov := freeSlotsLoop_covers timeMax busy timeMin hin hsorted
  have hsort := freeSlotsLoop_sorted timeMax busy timeMin hin hsorted
  refine ⟨?_, ?_, hsort.2, ?_, ?_⟩
  · intro t
    rw [computeFreeSlots, hcov t]
    constructor
    · intro h
      by_cases hb : coveredBy busy t
      · exact Or.inr hb
      · exact Or.inl ⟨h.1, h.2, hb⟩
    · rintro (h | h)
      · exact ⟨h.1, h.2.1⟩
      · obtain ⟨b, hbmem, hb1, hb2⟩ := h
        have := hin b hbmem
        exact ⟨by omega, by omega⟩
  · intro t ⟨hf, hb⟩
    rw [computeFreeSlots, hcov t] at hf
    exact hf.2.2 hb
  · intro iv hiv
    have := hsort.1 iv hiv
    exact ⟨this.2.1, this.1, this.2.2⟩
  · intro hb hlt
    subst hb
    simp [computeFreeSlots, freeSlotsLoop, hlt]

/-- Witness for C1 at a concrete input: window `[0, 10]`, one busy
interval `[2, 4)`. -/
theorem checkCalendar_free_partition_witness :
    (∀ t, ((0 : Int) ≤ t ∧ t < 10) ↔
      (coveredBy (computeFreeSlots 0 10 [⟨2, 4⟩]) t ∨
        coveredBy [⟨2, 4⟩] t)) ∧
    (∀ t, ¬ (coveredBy (computeFreeSlots 0 10 [⟨2, 4⟩]) t ∧
      coveredBy [⟨2, 4⟩] t)) ∧
    List.Pairwise (fun a b => a.stop ≤ b.start)
      (computeFreeSlots 0 10 [⟨2, 4⟩]) ∧
    (∀ iv ∈ computeFreeSlots 0 10 [⟨2, 4⟩],
      iv.start < iv.stop ∧ (0 : Int) ≤ iv.start ∧ iv.stop ≤ 10) ∧
    (([⟨2, 4⟩] : List Interval) = [] → (0 : Int) < 10 →
      computeFreeSlots 0 10 [⟨2, 4⟩] = [⟨0, 10⟩]) :=
  checkCalendar_free_partition 0 10 [⟨2, 4⟩]
    (by decide)
    (by decide)

/-! ### Slot-generator lemmas -/

theorem alignToHour_minute_zero (tz : TimeZone) :
    ∀ (fuel : Nat) (start c : Int), alignToHour tz fuel start = some c →
      (zonedParts tz c).minute = 0 := by
  intro fuel
  induction fuel with
  | zero =>
      intro start c h
      simp only [alignToHour] at h
      split at h
      · cases h; assumption
      · cases h
  | succ n ih =>
      intro start c h
      simp only [alignToHour] at h
      split at h
      · cases h; assumption
      · exact ih _ _ h

theorem alignToHour_ge (tz : TimeZone) :
    ∀ (fuel : Nat) (start c : Int), alignToHour tz fuel start = some c →
      start ≤ c ∧ ∃ j : Nat, c = start + j * msPerMinute := by
  intro fuel
  induction fuel with
  | zero =>
      intro start c h
      simp only [alignToHour] at h
      split at h
      · cases h; exact ⟨le_refl _, 0, by simp⟩
      · cases h
  | succ n ih =>
      intro start c h
      simp only [alignToHour] at h
      split at h
      · cases h; exact ⟨le_refl _, 0, by simp⟩
      · obtain ⟨h1, j, h2⟩ := ih _ _ h
        have hm : (0 : Int) < msPerMinute := by norm_num [msPerMinute]
        refine ⟨by omega, j + 1, ?_⟩
        push_cast
        linarith [h2]

theorem slotLoopN_mem_spec (tz : TimeZone) (workStart workEnd endDate :
    Int) :
    ∀ (n : Nat) (current : Int),
      ∀ s ∈ slotLoopN tz workStart workEnd endDate n current,
      current ≤ s.start ∧ s.stop = s.start + msPerHour ∧ s.stop ≤ endDate ∧
      1 ≤ (zonedParts tz s.start).weekday ∧
      (zonedParts tz s.start).weekday ≤ 5 ∧
      workStart ≤ (zonedParts tz s.start).hour ∧
      (zonedParts tz s.start).hour < workEnd ∧
      ∃ k : Nat, s.start = current + k * msPerHour := by
  intro n
  induction n with
  | zero =>
      intro current s hs
      simp [slotLoopN] at hs
  | succ n ih =>
      intro current s hs
      simp only [slotLoopN] at hs
      by_cases hfit : current + msPerHour ≤ endDate
      · rw [if_pos hfit] at hs
        have hm : (0 : Int) < msPerHour := by norm_num [msPerHour]
        rcases List.mem_append.mp hs with h | h
        · split at h
          · rename_i hcond
            simp only [List.mem_singleton] at h
            subst h
            obtain ⟨⟨hw1, hw2⟩, hh1, hh2⟩ := hcond
            exact ⟨le_refl _, rfl, hfit, hw1, hw2, hh1, hh2, 0, by simp⟩
          · simp at h
        · obtain ⟨h1, h2, h3, h4, h5, h6, h7, k, h8⟩ := ih _ s h
          refine ⟨by omega, h2, h3, h4, h5, h6, h7, k + 1, ?_⟩
          push_cast
          linarith [h8]
      · rw [if_neg hfit] at hs
        simp at hs

theorem slotLoop_mem_spec (tz : TimeZone) (workStart workEnd endDate : Int)
    (current : Int) :
    ∀ s ∈ slotLoop tz workStart workEnd endDate current,
      current ≤ s.start ∧ s.stop = s.start + msPerHour ∧ s.stop ≤ endDate ∧
      1 ≤ (zonedParts tz s.start).weekday ∧
      (zonedParts tz s.start).weekday ≤ 5 ∧
      workStart ≤ (zonedParts tz s.start).hour ∧
      (zonedParts tz s.start).hour < workEnd ∧
      ∃ k : Nat, s.start = current + k * msPerHour :=
  slotLoopN_mem_spec tz workStart workEnd endDate _ current

theorem generateHourlySlotsCore_mem (tz : TimeZone) (fuel : Nat)
    (workStart workEnd : Int) :
    ∀ (free : List Interval) (out : List Interval),
      generateHourlySlotsCore tz fuel workStart workEnd free = some out →
      ∀ s ∈ out, ∃ iv ∈ free, ∃ c,
        alignToHour tz fuel iv.start = some c ∧
        s ∈ slotLoop tz workStart workEnd iv.stop c := by
  intro free
  induction free with
  | nil =>
      intro out h s hs
      simp only [generateHourlySlotsCore] at h
      cases h
      simp at hs
  | cons iv rest ih =>
      intro out h s hs
      simp only [generateHourlySlotsCore, hourlySlotsForInterval, bind,
        Option.bind] at h
      cases halign : alignToHour tz fuel iv.start with
      | none => rw [halign] at h; simp at h
      | some c =>
          rw [halign] at h
          simp only [Option.map_some'] at h
          cases hrest : generateHourlySlotsCore tz fuel workStart workEnd
              rest with
          | none => rw [hrest] at h; simp at h
          | some r =>
              rw [hrest] at h
              simp only [pure, Option.some.injEq] at h
              subst h
              rcases List.mem_append.mp hs with hmem | hmem
              · exact ⟨iv, by simp, c, halign, hmem⟩
              · obtain ⟨iv', hiv', c', hc', hmem'⟩ := ih r hrest s hmem
                exact ⟨iv', by simp [hiv'], c', hc', hmem'⟩

theorem generateHourlySlots_mem (tzdb : String → Option TimeZone)
    (fuel : Nat) (free : List Interval) (tzName : String)
    (workStart workEnd : Int) (out : List Interval)
    (hgen : generateHourlySlots tzdb fuel free tzName workStart workEnd =
      .ok (some out)) :
    ∀ s ∈ out, ∃ tz, tzdb tzName = some tz ∧ ∃ iv ∈ free, ∃ c,
      alignToHour tz fuel iv.start = some c ∧
      s ∈ slotLoop tz workStart workEnd iv.stop c := by
  intro s hs
  match free, hgen with
  | [], hgen =>
      simp only [generateHourlySlots] at hgen
      cases hgen
      simp at hs
  | iv :: rest, hgen =>
      simp only [generateHourlySlots] at hgen
      cases htz : tzdb tzName with
      | none => rw [htz] at hgen; cases hgen
      | some tz =>
          rw [htz] at hgen
          simp only [Except.ok.injEq] at hgen
          obtain ⟨iv', hiv', c, hc, hmem⟩ :=
            generateHourlySlotsCore_mem tz fuel workStart workEnd
              (iv :: rest) out hgen s hs
          exact ⟨tz, rfl, iv', hiv', c, hc, hmem⟩

/-! ### C4 : weekday and working-hours filter -/

/-- C4. Every slot emitted by `generateHourlySlots` has a local start
weekday of Monday (1) through Friday (5) in the target time zone, and a
local start hour `h` with `work_start_hour ≤ h < work_end_hour`; no
Saturday/Sunday or out-of-hours slot is ever emitted. -/
theorem slots_weekday_workhours (tzdb : String → Option TimeZone)
    (fuel : Nat) (free : List Interval) (tzName : String)
    (workStart workEnd : Int) (out : List Interval)
    (hgen : generateHourlySlots tzdb fuel free tzName workStart workEnd =
      .ok (some out)) :
    ∀ s ∈ out, ∃ tz, tzdb tzName = some tz ∧
      1 ≤ (zonedParts tz s.start).weekday ∧
      (zonedParts tz s.start).weekday ≤ 5 ∧
      workStart ≤ (zonedParts tz s.start).hour ∧
      (zonedParts tz s.start).hour < workEnd := by
  intro s hs
  obtain ⟨tz, htz, iv, _, c, _, hmem⟩ :=
    generateHourlySlots_mem tzdb fuel free tzName workStart workEnd out
      hgen s hs
  obtain ⟨_, _, _, h4, h5, h6, h7, _⟩ :=
    slotLoop_mem_spec tz workStart workEnd iv.stop c s hmem
  exact ⟨tz, htz, h4, h5, h6, h7⟩

/-! ### C5 : containment in the source free interval -/

/-- C5. Every emitted slot lies entirely within the free interval it was
generated from: its start is at or after the interval's start, it lasts
exactly one hour (never truncated), and its end is at or before the
interval's end (a slot that would extend past the end is dropped). -/
theorem slots_within_interval (tzdb : String → Option TimeZone)
    (fuel : Nat) (free : List Interval) (tzName : String)
    (workStart workEnd : Int) (out : List Interval)
    (hgen : generateHourlySlots tzdb fuel free tzName workStart workEnd =
      .ok (some out)) :
    ∀ s ∈ out, ∃ iv ∈ free,
      iv.start ≤ s.start ∧ s.stop = s.start + msPerHour ∧
      s.stop ≤ iv.stop := by
  intro s hs
  obtain ⟨tz, _, iv, hiv, c, hc, hmem⟩ :=
    generateHourlySlots_mem tzdb fuel free tzName workStart workEnd out
      hgen s hs
  obtain ⟨h1, h2, h3, _⟩ := slotLoop_mem_spec tz workStart workEnd iv.stop
    c s hmem
  have hge := (alignToHour_ge tz fuel iv.start c hc).1
  exact ⟨iv, hiv, by omega, h2, h3⟩

/-! ### Sample time zones for concrete evaluations -/

/-- The fixed-offset UTC zone. -/
def utcTZ : TimeZone := ⟨fun _ => 0⟩

/-- A one-entry time-zone database recognizing only `"UTC"`. -/
def sampleTzdb : String → Option TimeZone :=
  fun s => if s = "UTC" then some utcTZ else none

/-- The instant 2025-10-04T15:30:00Z, at which Lord Howe Island's 2025
daylight-saving period begins (local clocks jump from 02:00 at UTC+10:30
to 02:30 at UTC+11:00 on Sunday 2025-10-05). -/
def lordHoweDstStart : Int := 1759591800000

/-- The IANA zone `Australia/Lord_Howe` around its 2025 DST start:
standard offset UTC+10:30 (630 minutes), daylight offset UTC+11:00
(660 minutes) — the only current IANA zone whose DST shift is not a whole
hour, so its offset is not constant modulo 60. -/
def lordHoweTZ : TimeZone :=
  ⟨fun t => if t < lordHoweDstStart then 630 else 660⟩

/-- A one-entry time-zone database recognizing only
`"Australia/Lord_Howe"`. -/
def lordHoweTzdb : String → Option TimeZone :=
  fun s => if s = "Australia/Lord_Howe" then some lordHoweTZ else none

/-! ### C3 : top-of-hour alignment of emitted slots -/

theorem zonedParts_minute_add_hours (tz : TimeZone)
    (hmod : ∀ t t', tz.offset t % 60 = tz.offset t' % 60)
    (c : Int) (k : Int) :
    (zonedParts tz (c + k * msPerHour)).minute =
      (zonedParts tz c).minute := by
  have h := hmod (c + k * msPerHour) c
  simp only [zonedParts, msPerHour, msPerMinute] at h ⊢
  omega

/-- C3 counterexample. For the valid IANA zone `Australia/Lord_Howe`
(whose DST shift is half an hour) and the free interval
2025-10-04T14:00Z – 2025-10-05T14:30Z, the generator aligns once before
the DST transition and then steps in whole UTC hours, so its single
emitted slot — starting Monday 2025-10-06 00:30 local time — has local
minute 30, not 0: the emitted slot does not start on a local top-of-hour
boundary. -/
theorem slot_minute_nonzero_lordHowe :
    generateHourlySlots lordHoweTzdb 60 [⟨1759586400000, 1759674600000⟩]
        "Australia/Lord_Howe" 0 24 =
      .ok (some [⟨1759671000000, 1759674600000⟩]) ∧
    lordHoweTzdb "Australia/Lord_Howe" = some lordHoweTZ ∧
    (zonedParts lordHoweTZ 1759671000000).minute = 30 ∧
    (zonedParts lordHoweTZ 1759671000000).weekday = 1 ∧
    (zonedParts lordHoweTZ 1759671000000).hour = 0 :=
  ⟨rfl, rfl, rfl, rfl, rfl⟩

/-- C3 (amended). For every time zone whose UTC offset is constant modulo
60 minutes across all instants — every fixed-offset zone, and every real
zone except the half-hour-DST zone `Australia/Lord_Howe` — each slot
emitted by `generateHourlySlots` starts with local minute exactly 0 in
the target zone. -/
theorem slots_minute_zero_of_offset_mod60
    (tzdb : String → Option TimeZone) (fuel : Nat) (free : List Interval)
    (tzName : String) (workStart workEnd : Int) (out : List Interval)
    (tz : TimeZone) (htz : tzdb tzName = some tz)
    (hmod : ∀ t t', tz.offset t % 60 = tz.offset t' % 60)
    (hgen : generateHourlySlots tzdb fuel free tzName workStart workEnd =
      .ok (some out)) :
    ∀ s ∈ out, (zonedParts tz s.start).minute = 0 := by
  intro s hs
  obtain ⟨tz', htz', iv, _, c, hc, hmem⟩ :=
    generateHourlySlots_mem tzdb fuel free tzName workStart workEnd out
      hgen s hs
  rw [htz] at htz'
  cases htz'
  obtain ⟨_, _, _, _, _, _, _, k, h8⟩ :=
    slotLoop_mem_spec tz workStart workEnd iv.stop c s hmem
  have h0 := alignToHour_minute_zero tz fuel iv.start c hc
  rw [h8]
  exact (zonedParts_minute_add_hours tz hmod c k).trans h0

/-- Witness for C3 at a concrete input: the UTC zone, one free interval
09:00–10:00 on Thursday 1970-01-01, work hours 9–17, and the single
emitted slot starting 09:00. -/
theorem slots_minute_zero_witness :
    (zonedParts utcTZ (⟨32400000, 36000000⟩ : Interval).start).minute =
      0 :=
  slots_minute_zero_of_offset_mod60 sampleTzdb 60 [⟨32400000, 36000000⟩]
    "UTC" 9 17 [⟨32400000, 36000000⟩] utcTZ rfl (fun _ _ => rfl) rfl
    ⟨32400000, 36000000⟩ (List.mem_singleton.mpr rfl)

/-- Witness for C4 at the same concrete input. -/
theorem slots_weekday_workhours_witness :
    ∃ tz, sampleTzdb "UTC" = some tz ∧
      1 ≤ (zonedParts tz (32400000 : Int)).weekday ∧
      (zonedParts tz (32400000 : Int)).weekday ≤ 5 ∧
      (9 : Int) ≤ (zonedParts tz (32400000 : Int)).hour ∧
      (zonedParts tz (32400000 : Int)).hour < 17 :=
  slots_weekday_workhours sampleTzdb 60 [⟨32400000, 36000000⟩] "UTC" 9 17
    [⟨32400000, 36000000⟩] rfl ⟨32400000, 36000000⟩ (List.mem_singleton.mpr
    rfl)

/-- Witness for C5 at the same concrete input. -/
theorem slots_within_interval_witness :
    ∃ iv ∈ ([⟨32400000, 36000000⟩] : List Interval),
      iv.start ≤ (32400000 : Int) ∧
      (36000000 : Int) = 32400000 + msPerHour ∧ (36000000 : Int) ≤ iv.stop :=
  slots_within_interval sampleTzdb 60 [⟨32400000, 36000000⟩] "UTC" 9 17
    [⟨32400000, 36000000⟩] rfl ⟨32400000, 36000000⟩ (List.mem_singleton.mpr
    rfl)

/-! ### C7 : behavior of the alignment advance -/

/-- C7 counterexample. For the UTC zone and the free interval
`[00:30, 00:40)` (epoch ms 1800000 to 2400000), the alignment loop walks
the cursor to 01:00 (3600000 ms) — strictly past the interval's own end:
the advance is not bounded by `interval.end`. -/
theorem align_passes_interval_end :
    alignToHour utcTZ 60 (⟨1800000, 2400000⟩ : Interval).start =
      some 3600000 ∧
    ¬ ((3600000 : Int) ≤ (⟨1800000, 2400000⟩ : Interval).stop) :=
  ⟨rfl, by decide⟩

theorem alignToHour_hits (tz : TimeZone) :
    ∀ (fuel : Nat) (start : Int) (j : Nat), j ≤ fuel →
      (zonedParts tz (start + j * msPerMinute)).minute = 0 →
      ∃ c, alignToHour tz fuel start = some c ∧ start ≤ c ∧
        c ≤ start + j * msPerMinute := by
  intro fuel
  induction fuel with
  | zero =>
      intro start j hj h0
      interval_cases j
      simp only [Nat.cast_zero, zero_mul, add_zero] at h0
      exact ⟨start, by simp [alignToHour, h0], le_refl _, by simp⟩
  | succ n ih =>
      intro start j hj h0
      by_cases hz : (zonedParts tz start).minute = 0
      · refine ⟨start, by simp [alignToHour, hz], le_refl _, ?_⟩
        have : (0 : Int) ≤ (j : Int) * msPerMinute :=
          mul_nonneg (by positivity) (by norm_num [msPerMinute])
        omega
      · match j, hj with
        | 0, _ =>
            simp only [Nat.cast_zero, zero_mul, add_zero] at h0
            exact absurd h0 hz
        | j' + 1, hj =>
            have hj' : j' ≤ n := by omega
            have h0' : (zonedParts tz
                ((start + msPerMinute) + j' * msPerMinute)).minute = 0 := by
              have harith : (start + msPerMinute) + (j' : Int) * msPerMinute
                  = start + ((j' : Nat) + 1 : Nat) * msPerMinute := by
                push_cast
                ring
              rw [harith]
              exact h0
            obtain ⟨c, hc, hc1, hc2⟩ := ih (start + msPerMinute) j' hj' h0'
            have hm : (0 : Int) < msPerMinute := by norm_num [msPerMinute]
            refine ⟨c, ?_, by omega, ?_⟩
            · simp only [alignToHour, if_neg hz]
              exact hc
            · have : start + ((j' : Nat) + 1 : Nat) * msPerMinute =
                  (start + msPerMinute) + (j' : Int) * msPerMinute := by
                push_cast
                ring
              omega

theorem exists_aligned_minute (tz : TimeZone)
    (hmod : ∀ t t', tz.offset t % 60 = tz.offset t' % 60) (start : Int) :
    ∃ j : Nat, j ≤ 59 ∧
      (zonedParts tz (start + j * msPerMinute)).minute = 0 := by
  have hb1 : (0 : Int) ≤
      (60 - (start / msPerMinute + tz.offset start) % 60) % 60 :=
    Int.emod_nonneg _ (by norm_num)
  have hb2 : (60 - (start / msPerMinute + tz.offset start) % 60) % 60 <
      60 :=
    Int.emod_lt_of_pos _ (by norm_num)
  refine ⟨((60 - (start / msPerMinute + tz.offset start) % 60) % 60).toNat,
    by omega, ?_⟩
  rw [Int.toNat_of_nonneg hb1]
  have hmod' := hmod
    (start + ((60 - (start / msPerMinute + tz.offset start) % 60) % 60) *
      msPerMinute) start
  simp only [zonedParts, msPerMinute] at hmod' ⊢
  omega

/-- C7 (amended). The alignment advance of `generateHourlySlots` is
monotonic — the cursor never moves backward — and, for a time zone whose
offset is constant modulo 60 minutes, it terminates within 59 one-minute
steps, so the cursor stays strictly below `interval.start + 1 hour`.  It
is not bounded by the interval's own end: `align_passes_interval_end`
shows a run where the cursor ends past `interval.end` (after which the
emission loop simply emits nothing). -/
theorem align_monotone_bounded_hour (tz : TimeZone) (fuel : Nat)
    (start : Int)
    (hmod : ∀ t t', tz.offset t % 60 = tz.offset t' % 60)
    (hfuel : 59 ≤ fuel) :
    ∃ c, alignToHour tz fuel start = some c ∧ start ≤ c ∧
      c < start + msPerHour := by
  obtain ⟨j, hj, h0⟩ := exists_aligned_minute tz hmod start
  obtain ⟨c, hc, hc1, hc2⟩ := alignToHour_hits tz fuel start j
    (by omega) h0
  refine ⟨c, hc, hc1, ?_⟩
  have : (j : Int) * msPerMinute ≤ 59 * msPerMinute := by
    have : (j : Int) ≤ 59 := by exact_mod_cast hj
    have hm : (0 : Int) < msPerMinute := by norm_num [msPerMinute]
    nlinarith
  simp only [msPerMinute, msPerHour] at *
  omega

/-- Witness for C7's amended statement at a concrete input: the UTC zone
and the cursor start 1800000 ms (00:30 UTC). -/
theorem align_monotone_bounded_hour_witness :
    ∃ c, alignToHour utcTZ 60 1800000 = some c ∧ (1800000 : Int) ≤ c ∧
      c < 1800000 + msPerHour :=
  align_monotone_bounded_hour utcTZ 60 1800000 (fun _ _ => rfl)
    (by norm_num)

/-! ### C6 : merge maximality -/

theorem groupLoop_head :
    ∀ (l : List Interval) (cur : Interval),
      ∃ e tail, groupLoop cur l = ⟨cur.start, e⟩ :: tail := by
  intro l
  induction l with
  | nil => intro cur; exact ⟨cur.stop, [], rfl⟩
  | cons s rest ih =>
      intro cur
      simp only [groupLoop]
      by_cases h : s.start = cur.stop
      · rw [if_pos h]
        exact ih ⟨cur.start, s.stop⟩
      · rw [if_neg h]
        exact ⟨cur.stop, groupLoop ⟨s.start, s.stop⟩ rest, rfl⟩

theorem groupLoop_chain :
    ∀ (l : List Interval) (cur : Interval),
      List.Chain' (fun a b => a.stop ≠ b.start) (groupLoop cur l) := by
  intro l
  induction l with
  | nil => intro cur; simp [groupLoop]
  | cons s rest ih =>
      intro cur
      simp only [groupLoop]
      by_cases h : s.start = cur.stop
      · rw [if_pos h]
        exact ih ⟨cur.start, s.stop⟩
      · rw [if_neg h]
        obtain ⟨e, tail, heq⟩ := groupLoop_head rest ⟨s.start, s.stop⟩
        rw [heq]
        refine List.chain'_cons.mpr ⟨?_, ?_⟩
        · exact fun hc => h hc.symm
        · rw [← heq]
          exact ih ⟨s.start, s.stop⟩

/-- C6. For every input slot sequence (in particular every chronologically
ordered one), any two adjacent merged intervals in the output of
`groupSlotsIntoIntervals` satisfy `M1.end ≠ M2.start`: adjacent outputs
can never be joined further. -/
theorem grouped_adjacent_not_joinable (slots : List Interval) :
    List.Chain' (fun a b => a.stop ≠ b.start)
      (groupSlotsIntoIntervals slots) := by
  cases slots with
  | nil => simp [groupSlotsIntoIntervals]
  | cons s rest => exact groupLoop_chain rest ⟨s.start, s.stop⟩

/-! ### C2 : invalid time zone is not a fast failure -/

/-- C2 counterexample. With the invalid time-zone name `"Not/A_Zone"`:
(a) when the whole window is busy (zero free intervals) the pipeline
succeeds with the empty array — no `InvalidTimezone` failure ever occurs;
(b) when the free/busy call itself fails, that fetch error is what
propagates — the fetch result is consumed before the time zone is ever
validated.  The claimed fail-fast before the fetch does not hold. -/
theorem invalidTZ_no_failfast :
    sampleTzdb "Not/A_Zone" = none ∧
    formattedCalendarAvailability sampleTzdb 60 "Not/A_Zone" 1 "cal@x.com"
      (.respBusy (some [⟨0, 86400000⟩])) 0 9 17 = .ok (some .emptyArr) ∧
    formattedCalendarAvailability sampleTzdb 60 "Not/A_Zone" 1 "cal@x.com"
      (.threw "network down") 0 9 17 = .error "network down" :=
  ⟨rfl, rfl, rfl⟩

/-- C2 (amended). An invalid time-zone identifier does not fail before
the free/busy fetch: the fetch completes and its result is consumed
first (`result.error` is rethrown with priority, and `result.free` is
read).  The invalid-zone error surfaces inside slot generation, at the
first local-time evaluation — hence before any slot is computed — and
only when at least one free interval exists; with zero free intervals
the pipeline succeeds with the empty array. -/
theorem invalidTZ_error_iff_free_nonempty
    (tzdb : String → Option TimeZone) (fuel : Nat) (timeZone : String)
    (days : Int) (calendarId : String) (api : ApiOutcome) (now : Int)
    (workStart workEnd : Int) (busy free : List Interval)
    (htz : tzdb (tzOrDefault timeZone) = none)
    (hcheck : checkCalendarAvailability now (now + days * 24 * msPerHour)
      calendarId api = .ok busy free) :
    (free ≠ [] →
      formattedCalendarAvailability tzdb fuel timeZone days calendarId api
        now workStart workEnd =
      .error ("Invalid time zone specified: " ++ tzOrDefault timeZone)) ∧
    (free = [] →
      formattedCalendarAvailability tzdb fuel timeZone days calendarId api
        now workStart workEnd = .ok (some .emptyArr)) := by
  constructor
  · intro hne
    match free, hne with
    | f :: fs, _ =>
        simp only [formattedCalendarAvailability, hcheck,
          generateHourlySlots, htz]
  · intro hemp
    subst hemp
    simp only [formattedCalendarAvailability, hcheck, generateHourlySlots,
      List.isEmpty_nil, if_pos]

/-- Witness for C2's amended statement: credentials-independent concrete
run with one free interval (empty busy list) and the unknown zone name. -/
theorem invalidTZ_error_witness :
    formattedCalendarAvailability sampleTzdb 60 "Not/A_Zone" 1 "cal@x.com"
      (.respBusy (some [])) 0 9 17 =
    .error ("Invalid time zone specified: " ++ tzOrDefault "Not/A_Zone") :=
  (invalidTZ_error_iff_free_nonempty sampleTzdb 60 "Not/A_Zone" 1
    "cal@x.com" (.respBusy (some [])) 0 9 17 [] [⟨0, 86400000⟩]
    rfl rfl).1 (by simp)

/-! ### C9 : checkCalendarAvailability never throws; the error is rethrown -/

/-- C9. `checkCalendarAvailability` always returns a value — either
`{busy, free}` or `{error: message}` — for every outcome of the upstream
call (a thrown auth/network error, a missing calendar, a response-level
errors field, or a busy list), and `formattedCalendarAvailability` turns
the returned `{error}` back into a raised exception with the same
message. -/
theorem checkCalendar_total_rethrow
    (tzdb : String → Option TimeZone) (fuel : Nat) (timeZone : String)
    (days : Int) (calendarId : String) (api : ApiOutcome) (now : Int)
    (workStart workEnd : Int) :
    ((∃ busy free, checkCalendarAvailability now
        (now + days * 24 * msPerHour) calendarId api = .ok busy free) ∨
      (∃ msg, checkCalendarAvailability now (now + days * 24 * msPerHour)
        calendarId api = .err msg)) ∧
    (∀ msg, checkCalendarAvailability now (now + days * 24 * msPerHour)
        calendarId api = .err msg →
      formattedCalendarAvailability tzdb fuel timeZone days calendarId api
        now workStart workEnd = .error msg) := by
  constructor
  · cases hc : checkCalendarAvailability now (now + days * 24 * msPerHour)
        calendarId api with
    | ok b f => exact Or.inl ⟨b, f, rfl⟩
    | err m => exact Or.inr ⟨m, rfl⟩
  · intro msg hmsg
    simp only [formattedCalendarAvailability, hmsg]

/-- Witness for C9 at a concrete input: a thrown upstream error
propagates with its message. -/
theorem checkCalendar_total_rethrow_witness :
    formattedCalendarAvailability sampleTzdb 60 "UTC" 1 "cal@x.com"
      (.threw "boom") 0 9 17 = .error "boom" :=
  (checkCalendar_total_rethrow sampleTzdb 60 "UTC" 1 "cal@x.com"
    (.threw "boom") 0 9 17).2 "boom" rfl

/-! ### C10 : empty-result shape versus grouped shape -/

theorem groupSlotsIntoIntervals_ne_nil (s : Interval)
    (rest : List Interval) : groupSlotsIntoIntervals (s :: rest) ≠ [] := by
  simp only [groupSlotsIntoIntervals]
  obtain ⟨e, tail, heq⟩ := groupLoop_head rest ⟨s.start, s.stop⟩
  rw [heq]
  simp

theorem addToGroups_ne_nil (gs : List (String × DayBucket))
    (o : IntervalObj) : addToGroups gs o ≠ [] := by
  unfold addToGroups
  by_cases h : gs.any (fun p => p.1 = o.dateStr)
  · rw [if_pos h]
    cases gs with
    | nil => simp at h
    | cons p rest => simp
  · rw [if_neg h]
    simp

theorem foldl_addToGroups_ne_nil (objs : List IntervalObj) :
    ∀ gs : List (String × DayBucket), gs ≠ [] →
      objs.foldl addToGroups gs ≠ [] := by
  induction objs with
  | nil => intro gs h; simpa using h
  | cons o rest ih =>
      intro gs _
      simp only [List.foldl_cons]
      exact ih (addToGroups gs o) (addToGroups_ne_nil gs o)

/-- C10. When slot generation yields zero candidate slots,
`formattedCalendarAvailability` returns the empty array; when at least
one slot exists it returns the grouped object, which then has at least
one date bucket — the two success shapes are distinct values and the
empty outcome is never an empty mapping. -/
theorem formatted_empty_vs_grouped
    (tzdb : String → Option TimeZone) (fuel : Nat) (timeZone : String)
    (days : Int) (calendarId : String) (api : ApiOutcome) (now : Int)
    (workStart workEnd : Int) (busy free hourly : List Interval)
    (hcheck : checkCalendarAvailability now (now + days * 24 * msPerHour)
      calendarId api = .ok busy free)
    (hgen : generateHourlySlots tzdb fuel free (tzOrDefault timeZone)
      workStart workEnd = .ok (some hourly)) :
    (hourly = [] →
      formattedCalendarAvailability tzdb fuel timeZone days calendarId api
        now workStart workEnd = .ok (some .emptyArr)) ∧
    (hourly ≠ [] → ∃ buckets, buckets ≠ [] ∧
      formattedCalendarAvailability tzdb fuel timeZone days calendarId api
        now workStart workEnd = .ok (some (.grouped buckets))) := by
  constructor
  · intro hemp
    subst hemp
    simp only [formattedCalendarAvailability, hcheck, hgen,
      List.isEmpty_nil, if_pos]
  · intro hne
    match hourly, hne with
    | h :: hs, _ =>
        have hfree : free ≠ [] := by
          intro hf
          subst hf
          simp only [generateHourlySlots] at hgen
          cases hgen
        obtain ⟨tz, htzsome⟩ : ∃ tz, tzdb (tzOrDefault timeZone) =
            some tz := by
          match free, hfree with
          | f :: fs, _ =>
              simp only [generateHourlySlots] at hgen
              cases htzv : tzdb (tzOrDefault timeZone) with
              | none => rw [htzv] at hgen; cases hgen
              | some tz => exact ⟨tz, rfl⟩
        refine ⟨groupByDate ((groupSlotsIntoIntervals (h :: hs)).map
          (intervalObject tz (tzOrDefault timeZone))), ?_, ?_⟩
        · have hiv := groupSlotsIntoIntervals_ne_nil h hs
          match hivs : groupSlotsIntoIntervals (h :: hs), hiv with
          | iv :: ivs, _ =>
              simp only [List.map_cons, groupByDate, List.foldl_cons]
              exact foldl_addToGroups_ne_nil _ _ (addToGroups_ne_nil [] _)
        · simp only [formattedCalendarAvailability, hcheck, hgen, htzsome]
          have hiv := groupSlotsIntoIntervals_ne_nil h hs
          simp only [List.isEmpty_cons, Bool.false_eq_true, if_false,
            List.isEmpty_eq_true, if_neg hiv]

/-- Witness for C10 at a concrete input: window Thursday 1970-01-01 UTC,
busy everywhere except 09:00–10:00, work hours 9–17 — one slot exists, so
the result is a non-empty grouped object. -/
theorem formatted_empty_vs_grouped_witness :
    ∃ buckets, buckets ≠ [] ∧
      formattedCalendarAvailability sampleTzdb 60 "UTC" 1 "cal@x.com"
        (.respBusy (some [⟨0, 32400000⟩, ⟨36000000, 86400000⟩])) 0 9 17 =
      .ok (some (.grouped buckets)) :=
  (formatted_empty_vs_grouped sampleTzdb 60 "UTC" 1 "cal@x.com"
    (.respBusy (some [⟨0, 32400000⟩, ⟨36000000, 86400000⟩])) 0 9 17
    [⟨0, 32400000⟩, ⟨36000000, 86400000⟩] [⟨32400000, 36000000⟩]
    [⟨32400000, 36000000⟩] rfl rfl).2 (by simp)

/-! ### C8 : day bucketing -/

/-- Association-list lookup mirroring the JS property access
`grouped[dateStr]` on the insertion-ordered object. -/
def lookupBucket (gs : List (String × DayBucket)) (k : String) :
    Option DayBucket :=
  (gs.find? (fun p => p.1 = k)).map (fun p => p.2)

/-- The day bucket the spec describes for a date key, stated from the
spec's words (second definition for the refinement comparison): the
formatted strings of exactly the interval objects carrying that ISO date,
in input order, with the weekday/month/day labels of the first of them;
no bucket when no interval has that date. -/
def specDayBucket (objs : List IntervalObj) (k : String) :
    Option DayBucket :=
  match objs.filter (fun o => o.dateStr = k) with
  | [] => none
  | o :: os => some ⟨o.day, o.month, o.date,
      (o :: os).map (fun x => x.interval)⟩

theorem lookupBucket_cons (p : String × DayBucket)
    (rest : List (String × DayBucket)) (k : String) :
    lookupBucket (p :: rest) k =
      if p.1 = k then some p.2 else lookupBucket rest k := by
  simp only [lookupBucket, List.find?_cons]
  by_cases h : p.1 = k
  · simp [h]
  · simp [h]

theorem lookupBucket_map_update (o : IntervalObj)
    (gs : List (String × DayBucket)) (k : String) :
    lookupBucket (gs.map (fun p =>
        if p.1 = o.dateStr then (p.1, pushInterval p.2 o.interval)
        else p)) k =
      (lookupBucket gs k).map (fun b =>
        if k = o.dateStr then pushInterval b o.interval else b) := by
  induction gs with
  | nil => rfl
  | cons p rest ih =>
      simp only [List.map_cons]
      by_cases hpo : p.1 = o.dateStr
      · rw [if_pos hpo, lookupBucket_cons, lookupBucket_cons]
        by_cases hp : p.1 = k
        · simp only [if_pos hp]
          rw [← hpo, hp]
          simp [hp ▸ hpo]
        · simp only [if_neg hp]
          exact ih
      · rw [if_neg hpo, lookupBucket_cons, lookupBucket_cons]
        by_cases hp : p.1 = k
        · simp only [if_pos hp]
          have hk : ¬ k = o.dateStr := fun h => hpo (hp.trans h)
          simp [hk]
        · simp only [if_neg hp]
          exact ih

theorem lookupBucket_append (l₁ l₂ : List (String × DayBucket))
    (k : String) :
    lookupBucket (l₁ ++ l₂) k =
      match lookupBucket l₁ k with
      | some b => some b
      | none => lookupBucket l₂ k := by
  induction l₁ with
  | nil => rfl
  | cons p rest ih =>
      simp only [List.cons_append, lookupBucket_cons]
      by_cases hp : p.1 = k
      · simp [hp]
      · simp only [if_neg hp]
        exact ih

theorem any_key_iff_lookup (gs : List (String × DayBucket)) (s : String) :
    gs.any (fun p => p.1 = s) = true ↔ (lookupBucket gs s).isSome := by
  induction gs with
  | nil => simp [lookupBucket]
  | cons p rest ih =>
      rw [List.any_cons, lookupBucket_cons]
      by_cases hp : p.1 = s
      · simp [hp]
      · simp [hp, ih]

theorem lookupBucket_addToGroups (gs : List (String × DayBucket))
    (o : IntervalObj) (k : String) :
    lookupBucket (addToGroups gs o) k =
      if k = o.dateStr then
        some (match lookupBucket gs o.dateStr with
          | some b => pushInterval b o.interval
          | none => ⟨o.day, o.month, o.date, [o.interval]⟩)
      else lookupBucket gs k := by
  unfold addToGroups
  by_cases hany : gs.any (fun p => p.1 = o.dateStr)
  · rw [if_pos hany, lookupBucket_map_update]
    by_cases hk : k = o.dateStr
    · subst hk
      obtain ⟨b, hb⟩ := Option.isSome_iff_exists.mp
        ((any_key_iff_lookup gs o.dateStr).mp hany)
      rw [hb]
      simp
    · rw [if_neg hk]
      cases lookupBucket gs k with
      | none => rfl
      | some b => simp [hk]
  · rw [if_neg hany, lookupBucket_map_update, lookupBucket_append]
    have hnone : lookupBucket gs o.dateStr = none := by
      cases ho : lookupBucket gs o.dateStr with
      | none => rfl
      | some b =>
          exact absurd ((any_key_iff_lookup gs o.dateStr).mpr
            (by simp [ho])) (by simpa using hany)
    by_cases hk : k = o.dateStr
    · subst hk
      rw [hnone]
      simp only [lookupBucket_cons]
      simp [pushInterval]
    · rw [if_neg hk]
      have hne : ¬ o.dateStr = k := fun h => hk h.symm
      have hlast : lookupBucket [(o.dateStr,
          (⟨o.day, o.month, o.date, []⟩ : DayBucket))] k = none := by
        rw [lookupBucket_cons, if_neg hne]
        rfl
      rw [hlast]
      cases lookupBucket gs k with
      | none => rfl
      | some b => simp [hk]

theorem foldl_addToGroups_lookup (objs : List IntervalObj) :
    ∀ (gs : List (String × DayBucket)) (k : String),
      lookupBucket (objs.foldl addToGroups gs) k =
        match lookupBucket gs k with
        | some b => some { b with intervals := (b.intervals ++
            ((objs.filter (fun o => o.dateStr = k)).map
              (fun x => x.interval))) }
        | none => specDayBucket objs k := by
  induction objs with
  | nil =>
      intro gs k
      simp only [List.foldl_nil]
      cases h : lookupBucket gs k with
      | none => simp [h, specDayBucket]
      | some b => simp [h]
  | cons o rest ih =>
      intro gs k
      simp only [List.foldl_cons]
      rw [ih (addToGroups gs o) k, lookupBucket_addToGroups]
      by_cases hk : k = o.dateStr
      · subst hk
        have hfil : (o :: rest).filter (fun x => x.dateStr = o.dateStr) =
            o :: rest.filter (fun x => x.dateStr = o.dateStr) := by
          simp [List.filter_cons]
        cases hgs : lookupBucket gs o.dateStr with
        | some b => simp [hfil, specDayBucket, pushInterval]
        | none => simp [hfil, specDayBucket, pushInterval]
      · rw [if_neg hk]
        have hne : ¬ o.dateStr = k := fun h => hk h.symm
        have hfil : (o :: rest).filter (fun x => x.dateStr = k) =
            rest.filter (fun x => x.dateStr = k) := by
          simp [List.filter_cons, hne]
        cases lookupBucket gs k with
        | none => simp [specDayBucket, hfil]
        | some b => simp [hfil]

/-- C8. Each merged interval is filed under the ISO `YYYY-MM-DD` date of
its start instant in the target time zone; for every date key, the
resulting bucket holds exactly the formatted strings of the intervals of
that date, appended in input (chronological) order, with the
weekday/month/day labels taken from the first interval of that date — and
no bucket exists for a date no interval starts on. -/
theorem groupByDate_buckets_spec (tz : TimeZone) (tzName : String)
    (merged : List Interval) (k : String) :
    lookupBucket (groupByDate (merged.map (intervalObject tz tzName))) k =
      specDayBucket (merged.map (intervalObject tz tzName)) k ∧
    ∀ iv : Interval, (intervalObject tz tzName iv).dateStr =
      toString (zonedParts tz iv.start).year ++ "-" ++
        pad2 (zonedParts tz iv.start).month ++ "-" ++
        pad2 (zonedParts tz iv.start).day := by
  constructor
  · have h := foldl_addToGroups_lookup
      (merged.map (intervalObject tz tzName)) [] k
    simpa [groupByDate, lookupBucket] using h
  · intro iv
    rfl

end GCalendar
